import Mathlib

/-!
A verification development for the tabular data-cleaning pipeline in
Scripts/csv_actions.py. Tables are modelled as ordered lists of named,
dtype-tagged columns of cells; float arithmetic is modelled exactly over ℚ.
-/

attribute [local semireducible] Rat.add Rat.sub Rat.mul Rat.inv Rat.ofScientific

namespace CsvActions

/-- Whitespace characters of Python str.strip and of the ASCII part of the
regex class of blanks. -/
def isPySpace (c : Char) : Bool :=
  c = ' ' || c = '\t' || c = '\n' || c = '\r' || c = '\x0b' || c = '\x0c'

/-- Strip leading and trailing whitespace from a character list. -/
def pyStripList (l : List Char) : List Char :=
  ((l.dropWhile isPySpace).reverse.dropWhile isPySpace).reverse

/-- Python str.strip with the default whitespace set. -/
def pyStrip (s : String) : String := String.mk (pyStripList s.data)

/-- The pandas dtype of a column as far as the pipeline inspects it: object
(string-typed) or numeric. -/
inductive Dtype
  | obj
  | num
  deriving DecidableEq

/-- A cell of the table: the missing marker (pd.NA / NaN), a raw string, or a
numeric value (floats modelled exactly over ℚ). -/
inductive Cell
  | missing
  | str (s : String)
  | num (q : ℚ)
  deriving DecidableEq

/-- A named column with its dtype and its cells in row order. -/
structure Column where
  name : String
  dtype : Dtype
  cells : List Cell
  deriving DecidableEq

/-- A table is an ordered list of named columns. -/
abbrev Table := List Column

/-- The column names of a table, in order. -/
def names (t : Table) : List String := t.map Column.name

/-- The first column of the given name, as pandas column selection finds it. -/
def getCol? (t : Table) (n : String) : Option Column :=
  t.find? (fun c => c.name == n)

/-- Replace the dtype and cells of the column of the given name, keeping the
column order. -/
def setColCells (t : Table) (n : String) (d : Dtype) (cs : List Cell) : Table :=
  t.map (fun c => if c.name == n then ⟨n, d, cs⟩ else c)

/-- Read a digit string as a natural number. -/
def digitsToNat (l : List Char) : ℕ :=
  l.foldl (fun a c => a * 10 + (c.toNat - '0'.toNat)) 0

/-- Unsigned decimal numeral: digits with an optional point and optional
fractional digits, at least one digit present. -/
def parseUnsigned (l : List Char) : Option ℚ :=
  let ip := l.takeWhile Char.isDigit
  let r := l.dropWhile Char.isDigit
  match r with
  | [] => if ip.isEmpty then none else some ((digitsToNat ip : ℚ))
  | '.' :: fr =>
      if fr.all Char.isDigit && (!ip.isEmpty || !fr.isEmpty) then
        some ((digitsToNat ip : ℚ) + (digitsToNat fr : ℚ) / (10 : ℚ) ^ fr.length)
      else none
  | _ => none

/-- Models the Python builtin float (and the numeral parsing of pandas
to_numeric) on plain decimal literals: optional surrounding whitespace,
optional sign, digits with an optional fractional part. Exponent notation and
the special float forms do not occur in this pipeline. -/
def parsePyFloat (s : String) : Option ℚ :=
  match pyStripList s.data with
  | '+' :: r => parseUnsigned r
  | '-' :: r => (parseUnsigned r).map (fun q => -q)
  | r => parseUnsigned r

/-- Rendering of a numeric cell as Python str shows a float: exact for
integers; other rationals are shown as a fraction. No theorem below depends on
the rendering of a non-integral numeric cell. -/
def ratToPyStr (q : ℚ) : String :=
  if q.den = 1 then toString q.num ++ ".0"
  else toString q.num ++ "/" ++ toString q.den

/-- Python str of a cell, as pandas astype(str) applies it elementwise: the
string form of the missing marker pd.NA is the literal <NA>. -/
def cellToStr : Cell → String
  | .missing => "<NA>"
  | .str s => s
  | .num q => ratToPyStr q

/-- pd.isna on a single cell. -/
def isNA : Cell → Bool
  | .missing => true
  | _ => false

/-- The float builtin applied to a cell value, as in the try block of
_convert_one; on the missing marker it raises, which the caller treats as
no parse. -/
def pyFloat? : Cell → Option ℚ
  | .missing => none
  | .str s => parsePyFloat s
  | .num q => some q

/-- One element of pandas to_numeric with errors=coerce: numbers kept,
parseable strings converted, everything else becomes missing. -/
def toNumericCoerce : Cell → Cell
  | .missing => .missing
  | .num q => .num q
  | .str s =>
      match parsePyFloat s with
      | some q => .num q
      | none => .missing

/-- Expansion of the degree glyph, as in the replace call of _convert_one. -/
def degExpand (c : Char) : List Char := if c = '°' then ['d', 'e', 'g'] else [c]

/-- Expansion of the micro glyph, as in the replace call of _convert_one. -/
def microExpand (c : Char) : List Char := if c = 'µ' then ['u'] else [c]

/-- Unit-token normalization of _convert_one: strip, replace the degree glyph
by deg, the micro glyph by u, and lower-case the result. -/
def normUnit (s : String) : String :=
  String.mk ((((pyStripList s.data).flatMap degExpand).flatMap microExpand).map Char.toLower)

/-- The length table of _convert_one, scales to metres. -/
def lengthUnits : List (String × ℚ) :=
  [("mm", 1e-3), ("cm", 1e-2), ("m", 1), ("km", 1e3)]

/-- The mass table of _convert_one, scales to kilograms. -/
def massUnits : List (String × ℚ) :=
  [("mg", 1e-6), ("g", 1e-3), ("kg", 1), ("t", 1e3)]

/-- The time table of _convert_one, scales to seconds. -/
def timeUnits : List (String × ℚ) :=
  [("ms", 1e-3), ("s", 1), ("min", 60), ("h", 3600)]

/-- The pressure table of _convert_one, scales to pascals. -/
def pressureUnits : List (String × ℚ) :=
  [("pa", 1), ("kpa", 1e3), ("mpa", 1e6), ("bar", 1e5), ("mbar", 1e2),
   ("atm", 101325), ("psi", 6894.757)]

/-- The force table of _convert_one, scales to newtons. -/
def forceUnits : List (String × ℚ) := [("n", 1), ("kn", 1e3)]

/-- The energy table of _convert_one, scales to joules. -/
def energyUnits : List (String × ℚ) := [("j", 1), ("kj", 1e3)]

/-- The dispatch of _convert_one once the magnitude has been read as a number
and the unit token normalized; value and unit are the cells as received,
returned unchanged on the unknown-unit path. -/
def convertParsed (v : ℚ) (u : String) (value unit : Cell) : Cell × Cell :=
  if u == "degc" || u == "c" then (.num (v + 273.15), .str "K")
  else if u == "degf" || u == "f" then (.num ((v - 32.0) * 5.0 / 9.0 + 273.15), .str "K")
  else if u == "k" || u == "degk" then (.num v, .str "K")
  else
    match List.lookup u lengthUnits with
    | some f => (.num (v * f), .str "m")
    | none =>
      match List.lookup u massUnits with
      | some f => (.num (v * f), .str "kg")
      | none =>
        match List.lookup u timeUnits with
        | some f => (.num (v * f), .str "s")
        | none =>
          match List.lookup u pressureUnits with
          | some f => (.num (v * f), .str "Pa")
          | none =>
            match List.lookup u forceUnits with
            | some f => (.num (v * f), .str "N")
            | none =>
              match List.lookup u energyUnits with
              | some f => (.num (v * f), .str "J")
              | none =>
                if u == "%" || u == "pct" then (.num (v / 100.0), .str "1")
                else (value, unit)

/-- The row transform _convert_one of convert_units_to_SI. -/
def convertOne (value unit : Cell) : Cell × Cell :=
  if isNA value || isNA unit then (value, unit)
  else
    match pyFloat? value with
    | none => (value, unit)
    | some v => convertParsed v (normUnit (cellToStr unit)) value unit

/-- A normalized token recognized by one of the fixed category tables of
_convert_one. -/
def knownUnit (u : String) : Bool :=
  (u == "degc" || u == "c") || (u == "degf" || u == "f") || (u == "k" || u == "degk") ||
  (List.lookup u lengthUnits).isSome || (List.lookup u massUnits).isSome ||
  (List.lookup u timeUnits).isSome || (List.lookup u pressureUnits).isSome ||
  (List.lookup u forceUnits).isSome || (List.lookup u energyUnits).isSome ||
  (u == "%" || u == "pct")

/-- Python str.endswith, by comparing the reversed prefix of the reversed
name against the reversed suffix. -/
def strEndsWith (s suf : String) : Bool :=
  s.data.reverse.take suf.data.length == suf.data.reverse

/-- The base name of a value column: the name with the six characters of the
value suffix dropped, as the slice col[:-6] does. -/
def baseOf (n : String) : String :=
  String.mk (n.data.take (n.data.length - 6))

/-- The unit-column partner name of a base name. -/
def unitName (b : String) : String := b ++ "_unit"

/-- Rowwise application of _convert_one to a value/unit column pair, followed
by the final to_numeric coercion of the value column. -/
def convertPairCells (vals units : List Cell) : List Cell × List Cell :=
  let conv := (vals.zip units).map (fun p => convertOne p.1 p.2)
  ((conv.map Prod.fst).map toNumericCoerce, conv.map Prod.snd)

/-- Whether a cell holds a string. -/
def isStrCell : Cell → Bool
  | .str _ => true
  | _ => false

/-- Dtype of the unit column after the rowwise writes: writing a string into a
numeric column upcasts it to object, otherwise the dtype is kept. -/
def unitDtypeAfter (d : Dtype) (newUnits : List Cell) : Dtype :=
  match d with
  | .obj => .obj
  | .num => if newUnits.any isStrCell then .obj else .num

/-- Convert one value/unit pair of columns of the table in place. -/
def convertPairT (t : Table) (vn un : String) : Table :=
  match getCol? t vn, getCol? t un with
  | some vc, some uc =>
      let p := convertPairCells vc.cells uc.cells
      setColCells (setColCells t vn .num p.1) un (unitDtypeAfter uc.dtype p.2) p.2
  | _, _ => t

/-- One iteration of the column loop of convert_units_to_SI: a column name
ending in the value suffix whose unit partner exists in the current columns
triggers the pair conversion. -/
def stepConv (acc : Table) (n : String) : Table :=
  if strEndsWith n "_value" && (names acc).contains (unitName (baseOf n)) then
    convertPairT acc n (unitName (baseOf n))
  else acc

/-- convert_units_to_SI: fold the pair conversion over the snapshot of the
column names taken before the loop. -/
def convert_units_to_SI (t : Table) : Table :=
  (names t).foldl stepConv t

/-- A one-row table whose unit token is unknown to every category table. -/
def lightyearTable : Table :=
  [⟨"x_value", .num, [.num 5]⟩, ⟨"x_unit", .obj, [.str "lightyear"]⟩]

/-- A one-row table whose magnitude cell is an unparseable string. -/
def abcTable : Table :=
  [⟨"x_value", .obj, [.str "abc"]⟩, ⟨"x_unit", .obj, [.str "K"]⟩]

/-- One character of the unit class of the extraction regex. -/
def isUnitChar (c : Char) : Bool :=
  ('A' ≤ c && c ≤ 'Z') || ('a' ≤ c && c ≤ 'z') || c = 'µ' || c = '°' || c = '%'

/-- The anchored extraction regex of extract_numeric_and_unit: optional
whitespace, digits with an optional single point or comma and optional
fractional digits, optional whitespace, one or more unit-class characters,
optional trailing whitespace; the two groups are the numeral and the unit
token. The character classes of the regex are pairwise disjoint, so this
greedy scan is exactly the regex match. -/
def extractNumUnit (s : String) : Option (String × String) :=
  let l0 := s.data.dropWhile isPySpace
  let ds := l0.takeWhile Char.isDigit
  let l1 := l0.dropWhile Char.isDigit
  if ds.isEmpty then none
  else
    let sep : List Char × List Char :=
      match l1 with
      | c :: r => if c = '.' || c = ',' then ([c], r) else ([], l1)
      | [] => ([], [])
    let fs := sep.2.takeWhile Char.isDigit
    let l2 := sep.2.dropWhile Char.isDigit
    let l3 := l2.dropWhile isPySpace
    let us := l3.takeWhile isUnitChar
    let l4 := l3.dropWhile isUnitChar
    if us.isEmpty then none
    else if (l4.dropWhile isPySpace).isEmpty then
      some (String.mk (ds ++ sep.1 ++ fs), String.mk us)
    else none

/-- All commas replaced by points: the regex-free str.replace applied to the
numeral group. -/
def commaToDot (s : String) : String :=
  String.mk (s.data.map (fun c => if c = ',' then '.' else c))

/-- The value cell produced for one source cell by the extractor: the numeral
group with comma normalized to point, passed through to_numeric coercion;
missing when the cell does not match. -/
def valCellOf (x : Cell) : Cell :=
  match extractNumUnit (cellToStr x) with
  | some p => toNumericCoerce (.str (commaToDot p.1))
  | none => .missing

/-- The unit cell produced for one source cell by the extractor: the matched
token, or missing when the cell does not match. -/
def unitCellOf (x : Cell) : Cell :=
  match extractNumUnit (cellToStr x) with
  | some p => .str p.2
  | none => .missing

/-- One column of extract_numeric_and_unit: an object column with at least one
matching cell is replaced, in place, by its value and unit columns; any other
column passes through unchanged. -/
def extractCol (c : Column) : List Column :=
  match c.dtype with
  | .num => [c]
  | .obj =>
      if (c.cells.map (fun x => extractNumUnit (cellToStr x))).any Option.isSome then
        [⟨c.name ++ "_value", .num, c.cells.map valCellOf⟩,
         ⟨c.name ++ "_unit", .obj, c.cells.map unitCellOf⟩]
      else [c]

/-- extract_numeric_and_unit over the whole table, keeping column positions. -/
def extract_numeric_and_unit (t : Table) : Table := t.flatMap extractCol

/-- Lower-casing, for the inline case-insensitive regex flag. -/
def lowerStr (s : String) : String := String.mk (s.data.map Char.toLower)

/-- The fixed sentinel patterns of normalize_missing_values, each an anchored
whole-cell regex: entirely-whitespace, the tokens na, n/a, null, none
case-insensitively, and the literals ?, -, . -/
def missingPatterns : List (String → Bool) :=
  [fun s => s.data.all isPySpace,
   fun s => lowerStr s == "na",
   fun s => lowerStr s == "n/a",
   fun s => lowerStr s == "null",
   fun s => lowerStr s == "none",
   fun s => s == "?",
   fun s => s == "-",
   fun s => s == "."]

/-- One frame-wide replace call on one cell: a string cell matching the
anchored pattern becomes the missing marker; other cells are untouched. -/
def applyPattern (acc : Cell) (p : String → Bool) : Cell :=
  match acc with
  | .str s => if p s then .missing else .str s
  | other => other

/-- normalize_missing_values on one cell: the replace calls applied in
pattern order. -/
def normCell (c : Cell) : Cell := missingPatterns.foldl applyPattern c

/-- normalize_missing_values applies the anchored replace patterns to every
cell of the frame. -/
def normalize_missing_values (t : Table) : Table :=
  t.map (fun c => ⟨c.name, c.dtype, c.cells.map normCell⟩)

/-- One column of strip_whitespace: the name stripped; an object column is
converted elementwise to strings (astype str) and stripped, so every cell of
it, the missing marker included, comes back as a string. -/
def stripCol (c : Column) : Column :=
  ⟨pyStrip c.name, c.dtype,
   match c.dtype with
   | .obj => c.cells.map (fun x => .str (pyStrip (cellToStr x)))
   | .num => c.cells⟩

/-- strip_whitespace over the whole table. -/
def strip_whitespace (t : Table) : Table := t.map stripCol

/-- One character step of the digit-comma-digit rewrite: the scan carries the
previous original character; a comma with a digit immediately before and
immediately after becomes a point. -/
def fixFrom (prev : Option Char) : List Char → List Char
  | [] => []
  | c :: rest =>
      (if c == ',' && prev.any Char.isDigit && rest.head?.any Char.isDigit
       then '.' else c) :: fixFrom (some c) rest

/-- The lookaround regex replace of fix_decimal_commas on one string. -/
def fixCommas (s : String) : String := String.mk (fixFrom none s.data)

/-- pandas to_numeric with errors=ignore on a whole column: if every element
parses (missing allowed), the column becomes numeric; if any element fails,
the whole column is returned unchanged. -/
def toNumericIgnoreCol (c : Column) : Column :=
  let parsed := c.cells.map (fun x =>
    match x with
    | .missing => some Cell.missing
    | .num q => some (Cell.num q)
    | .str s => (parsePyFloat s).map Cell.num)
  if parsed.all Option.isSome then
    ⟨c.name, .num, parsed.map (fun o => o.getD .missing)⟩
  else c

/-- One column of fix_decimal_commas: only object columns are touched; the
str accessor maps the rewrite over string cells, turns a non-string element
into missing, and keeps missing; then the column is re-typed best effort. -/
def fixCol (c : Column) : Column :=
  match c.dtype with
  | .num => c
  | .obj =>
      toNumericIgnoreCol
        ⟨c.name, .obj,
         c.cells.map (fun x =>
           match x with
           | .str s => .str (fixCommas s)
           | .missing => .missing
           | .num _ => .missing)⟩

/-- fix_decimal_commas over the whole table. -/
def fix_decimal_commas (t : Table) : Table := t.map fixCol

/-- A comma of the list that has a digit immediately before it and a digit
immediately after it, the lookaround condition of the rewrite regex. -/
abbrev flankedComma (l : List Char) (i : ℕ) : Prop :=
  l[i]? = some ',' ∧ 1 ≤ i ∧ (l[i-1]?).any Char.isDigit = true
    ∧ (l[i+1]?).any Char.isDigit = true

/-- The base name of a unit column: the name with the five characters of the
unit suffix dropped. -/
def baseOfU (n : String) : String :=
  String.mk (n.data.take (n.data.length - 5))

/-- A column name that belongs to a convertible value/unit pair of the given
name list: a value column whose unit partner exists, or a unit column whose
value partner exists. -/
def isPairMember (ns : List String) (m : String) : Bool :=
  (strEndsWith m "_value" && ns.contains (unitName (baseOf m))) ||
  (strEndsWith m "_unit" && ns.contains (baseOfU m ++ "_value"))

/-- A table holding a length pair, a temperature pair and a plain column. -/
def mixedTable : Table :=
  [⟨"len_value", .num, [.num 2]⟩, ⟨"len_unit", .obj, [.str "km"]⟩,
   ⟨"temp_value", .num, [.num 0]⟩, ⟨"temp_unit", .obj, [.str "C"]⟩,
   ⟨"note", .obj, [.str "x"]⟩]

end CsvActions

namespace CsvActions

/-- Unfolding lemma: on a numeric value cell and a string unit cell,
_convert_one parses the value and dispatches on the normalized token. -/
theorem convertOne_num_str (v : ℚ) (u : String) :
    convertOne (.num v) (.str u) = convertParsed v (normUnit u) (.num v) (.str u) := rfl

/-- C1: a magnitude whose unit token normalizes to Celsius converts to
v + 273.15 with unit K, and Fahrenheit to (v - 32) * 5 / 9 + 273.15 with unit
K; in particular (0, C) yields (273.15, K) and (32, F) yields (273.15, K). -/
theorem c1_temperature_conversion :
    (∀ (v : ℚ) (u : String), (normUnit u = "degc" ∨ normUnit u = "c") →
      convertOne (.num v) (.str u) = (.num (v + 273.15), .str "K"))
    ∧ (∀ (v : ℚ) (u : String), (normUnit u = "degf" ∨ normUnit u = "f") →
      convertOne (.num v) (.str u) = (.num ((v - 32.0) * 5.0 / 9.0 + 273.15), .str "K"))
    ∧ convertOne (.num 0) (.str "C") = (.num 273.15, .str "K")
    ∧ convertOne (.num 32) (.str "F") = (.num 273.15, .str "K") := by
  refine ⟨?_, ?_, by decide, by decide⟩
  · intro v u h
    rw [convertOne_num_str]
    rcases h with h | h <;> rw [h] <;> rfl
  · intro v u h
    rw [convertOne_num_str]
    rcases h with h | h <;> rw [h] <;> rfl

/-- Witness for C1: converting 100 with the degree-glyph Celsius token. -/
theorem c1_temperature_conversion_witness :
    convertOne (.num 100) (.str "°C") = (.num (100 + 273.15), .str "K") :=
  c1_temperature_conversion.1 100 "°C" (Or.inl (by decide))

/-- C2: the converter is the identity on pairs whose unit token is already
canonical (K, m, kg, s, Pa, N, J), hence re-running it on the pair it produced
returns the same pair; in particular (100, K) converts to (100, K). -/
theorem c2_convert_idempotent_on_canonical :
    (∀ (v : ℚ) (u : String), u ∈ (["K", "m", "kg", "s", "Pa", "N", "J"] : List String) →
      convertOne (.num v) (.str u) = (.num v, .str u))
    ∧ (∀ (v : ℚ) (u : String), u ∈ (["K", "m", "kg", "s", "Pa", "N", "J"] : List String) →
      convertOne (convertOne (.num v) (.str u)).1 (convertOne (.num v) (.str u)).2
        = convertOne (.num v) (.str u))
    ∧ convertOne (.num 100) (.str "K") = (.num 100, .str "K") := by
  have hA : ∀ (v : ℚ) (u : String), u ∈ (["K", "m", "kg", "s", "Pa", "N", "J"] : List String) →
      convertOne (.num v) (.str u) = (.num v, .str u) := by
    intro v u h
    rw [convertOne_num_str]
    simp only [List.mem_cons, List.not_mem_nil, or_false] at h
    rcases h with rfl | rfl | rfl | rfl | rfl | rfl | rfl
    · rfl
    · show (Cell.num (v * 1), Cell.str "m") = (Cell.num v, Cell.str "m")
      rw [mul_one]
    · show (Cell.num (v * 1), Cell.str "kg") = (Cell.num v, Cell.str "kg")
      rw [mul_one]
    · show (Cell.num (v * 1), Cell.str "s") = (Cell.num v, Cell.str "s")
      rw [mul_one]
    · show (Cell.num (v * 1), Cell.str "Pa") = (Cell.num v, Cell.str "Pa")
      rw [mul_one]
    · show (Cell.num (v * 1), Cell.str "N") = (Cell.num v, Cell.str "N")
      rw [mul_one]
    · show (Cell.num (v * 1), Cell.str "J") = (Cell.num v, Cell.str "J")
      rw [mul_one]
  refine ⟨hA, ?_, by decide⟩
  intro v u h
  rw [hA v u h]
  exact hA v u h

/-- Witness for C2: a canonical mass pair is fixed by the converter. -/
theorem c2_convert_idempotent_on_canonical_witness :
    convertOne (.num 100) (.str "kg") = (.num 100, .str "kg") :=
  c2_convert_idempotent_on_canonical.1 100 "kg" (by decide)

/-- The dispatch of _convert_one returns the received cells when the token is
in none of the category tables. -/
theorem convertParsed_unknown (v : ℚ) (w : String) (value unit : Cell)
    (h : knownUnit w = false) : convertParsed v w value unit = (value, unit) := by
  unfold knownUnit at h
  simp only [Bool.or_eq_false_iff] at h
  obtain ⟨⟨⟨⟨⟨⟨⟨⟨⟨⟨a1, a2⟩, ⟨b1, b2⟩⟩, ⟨c1, c2⟩⟩, d⟩, e⟩, f⟩, g⟩, i⟩, j⟩, k1, k2⟩ := h
  have d' : List.lookup w lengthUnits = none := by
    cases hx : List.lookup w lengthUnits
    · rfl
    · rw [hx] at d; simp at d
  have e' : List.lookup w massUnits = none := by
    cases hx : List.lookup w massUnits
    · rfl
    · rw [hx] at e; simp at e
  have f' : List.lookup w timeUnits = none := by
    cases hx : List.lookup w timeUnits
    · rfl
    · rw [hx] at f; simp at f
  have g' : List.lookup w pressureUnits = none := by
    cases hx : List.lookup w pressureUnits
    · rfl
    · rw [hx] at g; simp at g
  have i' : List.lookup w forceUnits = none := by
    cases hx : List.lookup w forceUnits
    · rfl
    · rw [hx] at i; simp at i
  have j' : List.lookup w energyUnits = none := by
    cases hx : List.lookup w energyUnits
    · rfl
    · rw [hx] at j; simp at j
  unfold convertParsed
  rw [a1, a2, b1, b2, c1, c2, d', e', f', g', i', j', k1, k2]
  rfl

/-- Unfolding lemma for _convert_one when neither cell is missing. -/
theorem convertOne_not_missing (value unit : Cell) (h1 : isNA value = false)
    (h2 : isNA unit = false) :
    convertOne value unit =
      (match pyFloat? value with
       | none => (value, unit)
       | some v => convertParsed v (normUnit (cellToStr unit)) value unit) := by
  unfold convertOne
  rw [h1, h2]
  rfl

/-- A row whose unit token is unknown passes through _convert_one unchanged,
whatever the value cell holds. -/
theorem convertOne_unknown (value : Cell) (u : String)
    (h : knownUnit (normUnit u) = false) :
    convertOne value (.str u) = (value, .str u) := by
  cases value with
  | missing => rfl
  | num v =>
      rw [convertOne_num_str]
      exact convertParsed_unknown v _ _ _ h
  | str s =>
      rw [convertOne_not_missing (.str s) (.str u) rfl rfl]
      simp only [pyFloat?, cellToStr]
      cases hp : parsePyFloat s
      · rfl
      · exact convertParsed_unknown _ _ _ _ h

/-- C3: a row whose unit token, after glyph and case normalization, is in none
of the fixed category tables passes through _convert_one with both cells
exactly as received; the whole-table converter leaves the (5, lightyear) table
unchanged. -/
theorem c3_unknown_unit_passthrough :
    (∀ (value : Cell) (u : String), knownUnit (normUnit u) = false →
      convertOne value (.str u) = (value, .str u))
    ∧ convert_units_to_SI lightyearTable = lightyearTable := by
  exact ⟨fun value u h => convertOne_unknown value u h, by decide⟩

/-- Witness for C3 at the concrete unknown token. -/
theorem c3_unknown_unit_passthrough_witness :
    convertOne (.num 5) (.str "lightyear") = (.num 5, .str "lightyear") :=
  c3_unknown_unit_passthrough.1 (.num 5) "lightyear" (by decide)

/-- C4 counterexample: in the table returned by the converter the unparseable
magnitude abc has become the missing marker, so the value cell is not left
untouched as the claim states. -/
theorem c4_unparseable_value_counterexample :
    parsePyFloat "abc" = none
    ∧ getCol? (convert_units_to_SI abcTable) "x_value"
        = some ⟨"x_value", .num, [.missing]⟩
    ∧ getCol? (convert_units_to_SI abcTable) "x_value" ≠ getCol? abcTable "x_value" := by
  exact ⟨by decide, by decide, by decide⟩

/-- C4 amended: the row transform _convert_one returns an unparseable magnitude
and its unit untouched, but the final numeric coercion of the value column
replaces that magnitude by the missing marker; the unit cell is returned as
received. -/
theorem c4_unparseable_value_amended :
    (∀ (s : String) (unit : Cell), parsePyFloat s = none →
      convertOne (.str s) unit = (.str s, unit))
    ∧ getCol? (convert_units_to_SI abcTable) "x_value"
        = some ⟨"x_value", .num, [.missing]⟩
    ∧ getCol? (convert_units_to_SI abcTable) "x_unit" = getCol? abcTable "x_unit" := by
  refine ⟨?_, by decide, by decide⟩
  intro s unit h
  cases unit with
  | missing => rfl
  | num q =>
      rw [convertOne_not_missing (.str s) (.num q) rfl rfl]
      simp only [pyFloat?]
      rw [h]
  | str u =>
      rw [convertOne_not_missing (.str s) (.str u) rfl rfl]
      simp only [pyFloat?]
      rw [h]

/-- Witness for C4 amended, at the unparseable magnitude abc. -/
theorem c4_unparseable_value_amended_witness :
    convertOne (.str "abc") (.str "K") = (.str "abc", .str "K") :=
  c4_unparseable_value_amended.1 "abc" (.str "K") (by decide)

/-- C5: the extractor passes non-text columns and matchless text columns
through unchanged; a text column with at least one matching cell is replaced,
at its position, by its value and unit columns, built cellwise; 12.5 mm splits
into 12.5 and mm, and a missing cell in a promoted column splits into missing
and missing. -/
theorem c5_extract_numeric_and_unit :
    (∀ c : Column, c.dtype = .num → extractCol c = [c])
    ∧ (∀ c : Column,
        (c.cells.map (fun x => extractNumUnit (cellToStr x))).any Option.isSome = false →
        extractCol c = [c])
    ∧ (∀ (n : String) (cells : List Cell),
        (cells.map (fun x => extractNumUnit (cellToStr x))).any Option.isSome = true →
        extractCol ⟨n, .obj, cells⟩ =
          [⟨n ++ "_value", .num, cells.map valCellOf⟩,
           ⟨n ++ "_unit", .obj, cells.map unitCellOf⟩])
    ∧ (∀ t₁ t₂ : Table, extract_numeric_and_unit (t₁ ++ t₂)
        = extract_numeric_and_unit t₁ ++ extract_numeric_and_unit t₂)
    ∧ extractNumUnit "12.5 mm" = some ("12.5", "mm")
    ∧ valCellOf (.str "12.5 mm") = .num 12.5
    ∧ unitCellOf (.str "12.5 mm") = .str "mm"
    ∧ valCellOf .missing = .missing
    ∧ unitCellOf .missing = .missing
    ∧ extract_numeric_and_unit
        [⟨"len", .obj, [.str "12.5 mm", .missing]⟩,
         ⟨"note", .obj, [.str "hello", .str "n,a"]⟩,
         ⟨"count", .num, [.num 3, .missing]⟩]
      = [⟨"len_value", .num, [.num 12.5, .missing]⟩,
         ⟨"len_unit", .obj, [.str "mm", .missing]⟩,
         ⟨"note", .obj, [.str "hello", .str "n,a"]⟩,
         ⟨"count", .num, [.num 3, .missing]⟩] := by
  refine ⟨?_, ?_, ?_, ?_, by decide, by decide, by decide, by decide, by decide, by decide⟩
  · intro c h
    rcases c with ⟨n, d, cells⟩
    cases d with
    | obj => exact Dtype.noConfusion h
    | num => rfl
  · intro c h
    rcases c with ⟨n, d, cells⟩
    cases d with
    | num => rfl
    | obj =>
        simp only [extractCol] at h ⊢
        rw [h]
        rfl
  · intro n cells h
    simp only [extractCol]
    rw [h]
    rfl
  · intro t₁ t₂
    induction t₁ with
    | nil => rfl
    | cons c t ih =>
        simp only [extract_numeric_and_unit, List.flatMap_cons, List.cons_append,
          List.append_assoc] at ih ⊢
        rw [ih]

/-- Witness for C5 at the concrete promoted column. -/
theorem c5_extract_numeric_and_unit_witness :
    extractCol ⟨"len", .obj, [.str "12.5 mm", .missing]⟩ =
      [⟨"len_value", .num, [.str "12.5 mm", Cell.missing].map valCellOf⟩,
       ⟨"len_unit", .obj, [.str "12.5 mm", Cell.missing].map unitCellOf⟩] :=
  c5_extract_numeric_and_unit.2.2.1 "len" [.str "12.5 mm", .missing] (by decide)

/-- The replace fold leaves the missing marker untouched. -/
theorem foldl_applyPattern_missing (ps : List (String → Bool)) :
    ps.foldl applyPattern .missing = .missing := by
  induction ps with
  | nil => rfl
  | cons p ps ih => simp only [List.foldl_cons]; exact ih

/-- The replace fold leaves a numeric cell untouched. -/
theorem foldl_applyPattern_num (ps : List (String → Bool)) (q : ℚ) :
    ps.foldl applyPattern (.num q) = .num q := by
  induction ps with
  | nil => rfl
  | cons p ps ih => simp only [List.foldl_cons]; exact ih

/-- The replace fold on a string cell yields the missing marker exactly when
some pattern matches the whole cell. -/
theorem foldl_applyPattern_str (ps : List (String → Bool)) (s : String) :
    ps.foldl applyPattern (.str s) = if ps.any (fun p => p s) then .missing else .str s := by
  induction ps with
  | nil => rfl
  | cons p ps ih =>
      simp only [List.foldl_cons, List.any_cons]
      by_cases hp : p s = true
      · rw [show applyPattern (.str s) p = .missing from by simp [applyPattern, hp],
          foldl_applyPattern_missing]
        simp [hp]
      · have hp' : p s = false := by simpa using hp
        rw [show applyPattern (.str s) p = .str s from by simp [applyPattern, hp'],
          ih]
        simp [hp']

/-- C6 counterexample: the cell with content space-na-space has trimmed content
na, a sentinel, but normalize_missing_values leaves the cell unchanged because
its patterns are anchored at the whole untrimmed cell. -/
theorem c6_missing_tagger_counterexample :
    pyStrip " na " = "na"
    ∧ "na" ∈ (["na", "n/a", "null", "none"] : List String)
    ∧ normalize_missing_values [⟨"x", .obj, [.str " na "]⟩]
        = [⟨"x", .obj, [.str " na "]⟩]
    ∧ Cell.str " na " ≠ Cell.missing := by
  exact ⟨by decide, by decide, by decide, by decide⟩

/-- C6 amended: a string cell becomes the missing marker exactly when its
entire untrimmed content is whitespace, or matches case-insensitively one of
na, n/a, null, none, or is exactly ?, -, or . — so whole-cell matching, never
substring and never after trimming; non-string cells are untouched. -/
theorem c6_missing_tagger_amended :
    (∀ s : String,
      normCell (.str s) = .missing ↔
        (s.data.all isPySpace = true
          ∨ lowerStr s ∈ (["na", "n/a", "null", "none"] : List String)
          ∨ s ∈ (["?", "-", "."] : List String)))
    ∧ (∀ q : ℚ, normCell (.num q) = .num q)
    ∧ normCell .missing = .missing := by
  refine ⟨?_, fun q => foldl_applyPattern_num _ q, foldl_applyPattern_missing _⟩
  intro s
  have hb := foldl_applyPattern_str missingPatterns s
  show missingPatterns.foldl applyPattern (.str s) = .missing ↔ _
  rw [hb]
  have hcond : (missingPatterns.any (fun p => p s)) = true ↔
      (s.data.all isPySpace = true
        ∨ lowerStr s ∈ (["na", "n/a", "null", "none"] : List String)
        ∨ s ∈ (["?", "-", "."] : List String)) := by
    simp [missingPatterns, List.any_cons, List.any_nil, Bool.or_eq_true, beq_iff_eq]
    tauto
  by_cases hc : (missingPatterns.any (fun p => p s)) = true
  · rw [if_pos hc]
    exact ⟨fun _ => hcond.mp hc, fun _ => rfl⟩
  · rw [if_neg hc]
    constructor
    · intro he; exact absurd he (by simp)
    · intro hr; exact absurd (hcond.mpr hr) hc

/-- Witness for C6 amended: an upper-case sentinel cell is tagged missing. -/
theorem c6_missing_tagger_amended_witness :
    normCell (.str "NULL") = .missing :=
  (c6_missing_tagger_amended.1 "NULL").mpr (by decide)

/-- C10: on a text column, strip_whitespace converts every cell to its string
form before stripping, so a missing cell comes back as the literal string form
of the marker, which is not the missing marker. -/
theorem c10_strip_whitespace_breaks_missing :
    (∀ (t : Table) (c : Column), c ∈ t → c.dtype = .obj →
      ∀ i : ℕ, c.cells[i]? = some .missing →
        ∃ c' : Column, c' ∈ strip_whitespace t ∧ c'.name = pyStrip c.name ∧
          c'.cells[i]? = some (.str "<NA>"))
    ∧ Cell.str "<NA>" ≠ Cell.missing := by
  refine ⟨?_, by decide⟩
  intro t c hmem hd i hi
  refine ⟨stripCol c, List.mem_map_of_mem stripCol hmem, rfl, ?_⟩
  obtain ⟨n, d, cells⟩ := c
  cases hd
  show (cells.map (fun x => Cell.str (pyStrip (cellToStr x))))[i]? = _
  rw [List.getElem?_map, hi]
  rfl

/-- Witness for C10 at a one-column table with a missing cell. -/
theorem c10_strip_whitespace_breaks_missing_witness :
    ∃ c' : Column, c' ∈ strip_whitespace [⟨" h ", .obj, [.missing]⟩]
      ∧ c'.name = pyStrip " h "
      ∧ c'.cells[0]? = some (.str "<NA>") :=
  c10_strip_whitespace_breaks_missing.1 [⟨" h ", .obj, [.missing]⟩]
    ⟨" h ", .obj, [.missing]⟩ (by decide) rfl 0 rfl

/-- Positional characterization of the comma rewrite scan, generalized over
the carried previous character. -/
theorem fixFrom_getElem? (l : List Char) : ∀ (prev : Option Char) (i : ℕ),
    (fixFrom prev l)[i]? =
      if (l[i]? = some ','
          ∧ ((i = 0 ∧ prev.any Char.isDigit = true)
              ∨ (1 ≤ i ∧ (l[i-1]?).any Char.isDigit = true))
          ∧ (l[i+1]?).any Char.isDigit = true)
      then some '.' else l[i]? := by
  induction l with
  | nil =>
      intro prev i
      simp [fixFrom]
  | cons c rest ih =>
      intro prev i
      cases i with
      | zero =>
          have hh : rest.head? = rest[0]? := by cases rest <;> simp
          simp only [fixFrom, List.getElem?_cons_zero, List.getElem?_cons_succ]
          by_cases h1 : c = ','
          · by_cases h2 : prev.any Char.isDigit = true
            · by_cases h3 : (rest[0]?).any Char.isDigit = true
              · simp [h1, h2, h3, hh]
              · simp [h1, h2, h3, hh]
            · simp [h1, h2, hh]
          · simp [h1, hh]
      | succ j =>
          simp only [fixFrom, List.getElem?_cons_succ]
          rw [ih (some c) j]
          refine if_congr ?_ rfl rfl
          cases j with
          | zero => simp
          | succ k => simp [Nat.succ_sub_one]

/-- C7: the repairer rewrites exactly those commas flanked by digits on both
sides into points, leaving every other character in place; it keeps the column
name and row count (it never fails the column); a column of repaired numerals
is re-typed numeric, so the cell 1,25 becomes the number 1.25, while a column
with any non-numeric cell keeps all its values as text. -/
theorem c7_fix_decimal_commas :
    (∀ (s : String) (i : ℕ),
      (fixCommas s).data[i]? =
        if flankedComma s.data i then some '.' else s.data[i]?)
    ∧ (∀ c : Column, (fixCol c).name = c.name ∧ (fixCol c).cells.length = c.cells.length)
    ∧ fix_decimal_commas [⟨"x", .obj, [.str "1,25"]⟩] = [⟨"x", .num, [.num 1.25]⟩]
    ∧ fix_decimal_commas [⟨"y", .obj, [.str "1,25", .str "ab"]⟩]
        = [⟨"y", .obj, [.str "1.25", .str "ab"]⟩] := by
  refine ⟨?_, ?_, by decide, by decide⟩
  · intro s i
    show (fixFrom none s.data)[i]? = _
    rw [fixFrom_getElem? s.data none i]
    refine if_congr ?_ rfl rfl
    simp only [flankedComma, Option.any_none]
    constructor
    · rintro ⟨ha, ⟨_, hfalse⟩ | ⟨hi, hb⟩, hc⟩
      · exact absurd hfalse (by simp)
      · exact ⟨ha, hi, hb, hc⟩
    · rintro ⟨ha, hi, hb, hc⟩
      exact ⟨ha, Or.inr ⟨hi, hb⟩, hc⟩
  · intro c
    rcases c with ⟨n, d, cells⟩
    cases d with
    | num => exact ⟨rfl, rfl⟩
    | obj =>
        refine ⟨?_, ?_⟩ <;>
          (simp only [fixCol, toNumericIgnoreCol]; split <;> simp [List.length_map])

/-- Two strings with the same character data are equal. -/
theorem string_eq_of_data {s t : String} (h : s.data = t.data) : s = t :=
  congrArg String.mk h

/-- A name ending in the value suffix, read from its reversed data. -/
theorem strEndsWith_value_rev (n : String) (h : strEndsWith n "_value" = true) :
    n.data.reverse = 'e' :: 'u' :: 'l' :: 'a' :: 'v' :: '_' :: n.data.reverse.drop 6 := by
  have h' := eq_of_beq h
  rw [show "_value".data.reverse = ['e', 'u', 'l', 'a', 'v', '_'] from rfl,
    show "_value".data.length = 6 from rfl] at h'
  conv_lhs => rw [← List.take_append_drop 6 n.data.reverse]
  rw [h']
  rfl

/-- A name ending in the unit suffix, read from its reversed data. -/
theorem strEndsWith_unit_rev (n : String) (h : strEndsWith n "_unit" = true) :
    n.data.reverse = 't' :: 'i' :: 'n' :: 'u' :: '_' :: n.data.reverse.drop 5 := by
  have h' := eq_of_beq h
  rw [show "_unit".data.reverse = ['t', 'i', 'n', 'u', '_'] from rfl,
    show "_unit".data.length = 5 from rfl] at h'
  conv_lhs => rw [← List.take_append_drop 5 n.data.reverse]
  rw [h']
  rfl

/-- No name ends in both the value suffix and the unit suffix. -/
theorem not_value_and_unit (n : String) (h1 : strEndsWith n "_value" = true)
    (h2 : strEndsWith n "_unit" = true) : False := by
  have e1 := strEndsWith_value_rev n h1
  have e2 := strEndsWith_unit_rev n h2
  rw [e1] at e2
  simp at e2

/-- The unit partner name ends in the unit suffix. -/
theorem unitName_endsWith_unit (b : String) : strEndsWith (unitName b) "_unit" = true := by
  unfold strEndsWith unitName
  rw [String.data_append, List.reverse_append]
  rw [show "_unit".data.reverse = ['t', 'i', 'n', 'u', '_'] from rfl,
    show "_unit".data.length = 5 from rfl]
  rw [List.take_left' (by rfl)]
  rfl

/-- A value-column name is its base followed by the value suffix. -/
theorem value_decomp (n : String) (h : strEndsWith n "_value" = true) :
    n = baseOf n ++ "_value" := by
  have e := strEndsWith_value_rev n h
  apply string_eq_of_data
  rw [String.data_append]
  show n.data = n.data.take (n.data.length - 6) ++ "_value".data
  have e2 : n.data = (n.data.reverse.drop 6).reverse ++ ['_', 'v', 'a', 'l', 'u', 'e'] := by
    conv_lhs => rw [← List.reverse_reverse n.data]
    rw [e]
    simp
  rw [e2]
  rw [show ((n.data.reverse.drop 6).reverse ++ ['_', 'v', 'a', 'l', 'u', 'e'] : List Char).length - 6
      = (n.data.reverse.drop 6).reverse.length from by simp]
  rw [List.take_left]

/-- Recovering the base from the unit partner name. -/
theorem baseOfU_unitName (b : String) : baseOfU (unitName b) = b := by
  apply string_eq_of_data
  show (b ++ "_unit").data.take ((b ++ "_unit").data.length - 5) = b.data
  rw [String.data_append, List.length_append, show "_unit".data.length = 5 from rfl,
    Nat.add_sub_cancel]
  exact List.take_left _ _

/-- The unit partner name determines the base. -/
theorem unitName_inj {b b' : String} (h : unitName b = unitName b') : b = b' := by
  apply string_eq_of_data
  have h' := congrArg String.data h
  unfold unitName at h'
  rw [String.data_append, String.data_append] at h'
  exact List.append_cancel_right h'

/-- Membership gives a positive contains test. -/
theorem contains_of_mem {l : List String} {a : String} (h : a ∈ l) :
    l.contains a = true := by
  rw [List.contains_eq_any_beq, List.any_eq_true]
  exact ⟨a, h, by simp⟩

/-- A found column witnesses its name in the name list. -/
theorem mem_names_of_getCol? {t : Table} {m : String} {c : Column}
    (h : getCol? t m = some c) : m ∈ names t := by
  have h0 : List.find? (fun x => x.name == m) t = some c := h
  have hpred := List.find?_some h0
  have hmem : c ∈ t := List.mem_of_find?_eq_some h0
  have hpred2 : (c.name == m) = true := hpred
  rw [← eq_of_beq hpred2]
  exact List.mem_map_of_mem Column.name hmem

/-- Column lookup on a cons cell. -/
theorem getCol?_cons (x : Column) (rest : Table) (m : String) :
    getCol? (x :: rest) m = if x.name == m then some x else getCol? rest m := by
  unfold getCol?
  rw [List.find?_cons]
  cases h : x.name == m <;> simp [h]

/-- Column update does not change the name list. -/
theorem names_setColCells (t : Table) (n : String) (d : Dtype) (cs : List Cell) :
    names (setColCells t n d cs) = names t := by
  unfold names setColCells
  rw [List.map_map]
  apply List.map_congr_left
  intro c _
  by_cases h : (c.name == n) = true
  · simp [Function.comp, h, (eq_of_beq h).symm]
  · simp only [Bool.not_eq_true] at h
    simp [Function.comp, h]

/-- Column lookup after a column update. -/
theorem getCol?_setColCells (t : Table) (n : String) (d : Dtype) (cs : List Cell)
    (m : String) :
    getCol? (setColCells t n d cs) m =
      if m = n then (getCol? t n).map (fun _ => ⟨n, d, cs⟩) else getCol? t m := by
  induction t with
  | nil =>
      show (none : Option Column) = if m = n then Option.map _ none else none
      split <;> rfl
  | cons c t ih =>
      have e : setColCells (c :: t) n d cs
          = (if c.name == n then ⟨n, d, cs⟩ else c) :: setColCells t n d cs := rfl
      rw [e]
      by_cases hcn : (c.name == n) = true
      · rw [if_pos hcn, getCol?_cons, getCol?_cons, getCol?_cons]
        by_cases hmn : m = n
        · subst hmn
          simp [hcn, eq_of_beq hcn]
        · have hnm : (n == m) = false := by
            simp only [beq_eq_false_iff_ne, ne_eq]
            exact fun hx => hmn hx.symm
          have hcm : (c.name == m) = false := by
            rw [eq_of_beq hcn]; exact hnm
          simp [hnm, hcm, hmn, ih]
      · have hcn' : (c.name == n) = false := by simpa using hcn
        rw [if_neg (by simp [hcn']), getCol?_cons, getCol?_cons, getCol?_cons]
        by_cases hcm : (c.name == m) = true
        · have hne : c.name ≠ n := by simpa using hcn'
          have hmn : ¬(m = n) := fun hx => hne (by rw [eq_of_beq hcm, hx])
          simp [hcm, hmn]
        · have hcm' : (c.name == m) = false := by simpa using hcm
          simp [hcm', hcn', ih]

/-- Names survive the pair conversion. -/
theorem names_convertPairT (t : Table) (vn un : String) :
    names (convertPairT t vn un) = names t := by
  unfold convertPairT
  cases hv : getCol? t vn <;> cases hu : getCol? t un <;>
    simp [names_setColCells]

/-- Names survive one loop iteration. -/
theorem names_stepConv (acc : Table) (n : String) :
    names (stepConv acc n) = names acc := by
  unfold stepConv
  split
  · exact names_convertPairT _ _ _
  · rfl

/-- Names survive the whole loop. -/
theorem names_foldl (ns : List String) (acc : Table) :
    names (ns.foldl stepConv acc) = names acc := by
  induction ns generalizing acc with
  | nil => rfl
  | cons n ns ih => rw [List.foldl_cons, ih, names_stepConv]

/-- The pair conversion touches no other column. -/
theorem getCol?_convertPairT_other (t : Table) (vn un m : String)
    (h1 : m ≠ vn) (h2 : m ≠ un) :
    getCol? (convertPairT t vn un) m = getCol? t m := by
  unfold convertPairT
  cases hv : getCol? t vn with
  | none => rfl
  | some vc =>
      cases hu : getCol? t un with
      | none => rfl
      | some uc =>
          rw [getCol?_setColCells, if_neg h2, getCol?_setColCells, if_neg h1]

/-- The pair conversion writes exactly the converted pair columns. -/
theorem getCol?_convertPairT_self (t : Table) (vn un : String) (vc uc : Column)
    (hvu : vn ≠ un) (hv : getCol? t vn = some vc) (hu : getCol? t un = some uc) :
    getCol? (convertPairT t vn un) vn
        = some ⟨vn, .num, (convertPairCells vc.cells uc.cells).1⟩
    ∧ getCol? (convertPairT t vn un) un
        = some ⟨un, unitDtypeAfter uc.dtype (convertPairCells vc.cells uc.cells).2,
                (convertPairCells vc.cells uc.cells).2⟩ := by
  unfold convertPairT
  rw [hv, hu]
  constructor
  · rw [getCol?_setColCells, if_neg hvu, getCol?_setColCells, if_pos rfl, hv]
    rfl
  · rw [getCol?_setColCells, if_pos rfl, getCol?_setColCells,
      if_neg (fun hx => hvu hx.symm), hu]
    rfl

/-- One loop iteration touches no column other than its own pair. -/
theorem getCol?_stepConv_other (acc : Table) (n m : String)
    (h : (strEndsWith n "_value" && (names acc).contains (unitName (baseOf n))) = true →
      m ≠ n ∧ m ≠ unitName (baseOf n)) :
    getCol? (stepConv acc n) m = getCol? acc m := by
  unfold stepConv
  by_cases hc : (strEndsWith n "_value" && (names acc).contains (unitName (baseOf n))) = true
  · rw [if_pos hc]
    exact getCol?_convertPairT_other _ _ _ _ (h hc).1 (h hc).2
  · rw [if_neg hc]

/-- The loop touches no column outside the pairs of its name list. -/
theorem getCol?_foldl_other (ns : List String) (acc : Table) (m : String)
    (h : ∀ n ∈ ns,
      (strEndsWith n "_value" && (names acc).contains (unitName (baseOf n))) = true →
      m ≠ n ∧ m ≠ unitName (baseOf n)) :
    getCol? (ns.foldl stepConv acc) m = getCol? acc m := by
  induction ns generalizing acc with
  | nil => rfl
  | cons n ns ih =>
      rw [List.foldl_cons]
      rw [ih (stepConv acc n) ?_, getCol?_stepConv_other acc n m (h n (by simp))]
      intro n' hn' hc'
      apply h n' (by simp [hn'])
      rwa [names_stepConv] at hc'

/-- A unit partner name never ends in the value suffix. -/
theorem unitName_not_value (b : String) : strEndsWith (unitName b) "_value" = false := by
  cases hx : strEndsWith (unitName b) "_value" with
  | false => rfl
  | true => exact (not_value_and_unit _ hx (unitName_endsWith_unit b)).elim

/-- C8: the converter writes only to existing value/unit column pairs. The
name list is preserved (so no column is deleted and order is kept); every
column that is not a member of a convertible pair is returned identically;
and the output of each convertible pair is a function of exactly that pair's
own input cells, so converting one pair never alters a co-existing pair. -/
theorem c8_converter_frame (t : Table) (hnd : (names t).Nodup) :
    names (convert_units_to_SI t) = names t
    ∧ (∀ m : String, isPairMember (names t) m = false →
        getCol? (convert_units_to_SI t) m = getCol? t m)
    ∧ (∀ (vn : String) (vc uc : Column), strEndsWith vn "_value" = true →
        getCol? t vn = some vc → getCol? t (unitName (baseOf vn)) = some uc →
        getCol? (convert_units_to_SI t) vn
            = some ⟨vn, .num, (convertPairCells vc.cells uc.cells).1⟩
        ∧ getCol? (convert_units_to_SI t) (unitName (baseOf vn))
            = some ⟨unitName (baseOf vn),
                    unitDtypeAfter uc.dtype (convertPairCells vc.cells uc.cells).2,
                    (convertPairCells vc.cells uc.cells).2⟩) := by
  refine ⟨names_foldl _ _, ?_, ?_⟩
  · intro m hm
    apply getCol?_foldl_other
    intro n hn hc
    rw [Bool.and_eq_true] at hc
    obtain ⟨h1, h2⟩ := hc
    constructor
    · rintro rfl
      have hmem : isPairMember (names t) m = true := by
        unfold isPairMember
        rw [h1, h2]
        rfl
      rw [hmem] at hm
      exact Bool.noConfusion hm
    · rintro rfl
      have hu1 : strEndsWith (unitName (baseOf n)) "_unit" = true :=
        unitName_endsWith_unit _
      have hval : (names t).contains (baseOfU (unitName (baseOf n)) ++ "_value") = true := by
        rw [baseOfU_unitName, ← value_decomp n h1]
        exact contains_of_mem hn
      have hmem : isPairMember (names t) (unitName (baseOf n)) = true := by
        unfold isPairMember
        rw [hu1, hval, unitName_not_value]
        rfl
      rw [hmem] at hm
      exact Bool.noConfusion hm
  · intro vn vc uc hv hcolv hcolu
    have hvn_mem : vn ∈ names t := mem_names_of_getCol? hcolv
    have hun_mem : unitName (baseOf vn) ∈ names t := mem_names_of_getCol? hcolu
    obtain ⟨pre, post, hsplit⟩ := List.append_of_mem hvn_mem
    have hnd2 : (pre ++ vn :: post).Nodup := by rw [← hsplit]; exact hnd
    have hvn_pre : vn ∉ pre := by
      rcases List.nodup_append.mp hnd2 with ⟨-, -, hdisj⟩
      intro hx
      exact hdisj hx (List.mem_cons_self vn post)
    have hvn_post : vn ∉ post := by
      rcases List.nodup_append.mp hnd2 with ⟨-, hnd3, -⟩
      exact (List.nodup_cons.mp hnd3).1
    have hstep_facts : ∀ n', n' ∈ pre ∨ n' ∈ post → ∀ acc' : Table,
        names acc' = names t →
        (strEndsWith n' "_value" && (names acc').contains (unitName (baseOf n'))) = true →
        (vn ≠ n' ∧ vn ≠ unitName (baseOf n'))
          ∧ (unitName (baseOf vn) ≠ n' ∧ unitName (baseOf vn) ≠ unitName (baseOf n')) := by
      intro n' hn' acc' hacc hcond
      rw [Bool.and_eq_true] at hcond
      obtain ⟨hc1, hc2⟩ := hcond
      have hne : vn ≠ n' := by
        rintro rfl
        rcases hn' with h | h
        · exact hvn_pre h
        · exact hvn_post h
      refine ⟨⟨hne, ?_⟩, ?_, ?_⟩
      · intro hx
        exact not_value_and_unit vn hv (by rw [hx]; exact unitName_endsWith_unit _)
      · intro hx
        exact not_value_and_unit n' hc1 (by rw [← hx]; exact unitName_endsWith_unit _)
      · intro hx
        have hb := unitName_inj hx
        exact hne (by rw [value_decomp vn hv, value_decomp n' hc1, hb])
    set acc1 := pre.foldl stepConv t with hacc1
    have hsplit_fold : convert_units_to_SI t
        = post.foldl stepConv (stepConv acc1 vn) := by
      unfold convert_units_to_SI
      rw [hsplit, List.foldl_append, List.foldl_cons]
    have hnames1 : names acc1 = names t := names_foldl _ _
    have hacc1v : getCol? acc1 vn = some vc := by
      rw [hacc1, getCol?_foldl_other pre t vn
        (fun n' hn' hcond => (hstep_facts n' (Or.inl hn') t rfl hcond).1)]
      exact hcolv
    have hacc1u : getCol? acc1 (unitName (baseOf vn)) = some uc := by
      rw [hacc1, getCol?_foldl_other pre t (unitName (baseOf vn))
        (fun n' hn' hcond => (hstep_facts n' (Or.inl hn') t rfl hcond).2)]
      exact hcolu
    have hcond : (strEndsWith vn "_value"
        && (names acc1).contains (unitName (baseOf vn))) = true := by
      rw [Bool.and_eq_true]
      exact ⟨hv, by rw [hnames1]; exact contains_of_mem hun_mem⟩
    have hvu : vn ≠ unitName (baseOf vn) := by
      intro hx
      exact not_value_and_unit vn hv (by rw [hx]; exact unitName_endsWith_unit _)
    have hstep : stepConv acc1 vn = convertPairT acc1 vn (unitName (baseOf vn)) := by
      unfold stepConv
      rw [if_pos hcond]
    have hpair := getCol?_convertPairT_self acc1 vn (unitName (baseOf vn)) vc uc
      hvu hacc1v hacc1u
    have hn2 : names (stepConv acc1 vn) = names t := by
      rw [names_stepConv, hnames1]
    have hfinal_v : getCol? (convert_units_to_SI t) vn
        = getCol? (stepConv acc1 vn) vn := by
      rw [hsplit_fold]
      exact getCol?_foldl_other post (stepConv acc1 vn) vn
        (fun n' hn' hcond' => (hstep_facts n' (Or.inr hn') _ hn2 hcond').1)
    have hfinal_u : getCol? (convert_units_to_SI t) (unitName (baseOf vn))
        = getCol? (stepConv acc1 vn) (unitName (baseOf vn)) := by
      rw [hsplit_fold]
      exact getCol?_foldl_other post (stepConv acc1 vn) (unitName (baseOf vn))
        (fun n' hn' hcond' => (hstep_facts n' (Or.inr hn') _ hn2 hcond').2)
    constructor
    · rw [hfinal_v, hstep]
      exact hpair.1
    · rw [hfinal_u, hstep]
      exact hpair.2

/-- Witness for C8 at a table holding a length pair, a temperature pair and a
plain column. -/
theorem c8_converter_frame_witness :
    getCol? (convert_units_to_SI mixedTable) "note" = getCol? mixedTable "note" :=
  (c8_converter_frame mixedTable (by decide)).2.1 "note" (by decide)

end CsvActions
